import Mathlib

/-!
Shallow embedding of the segment-timing synchronization and timeline-assembly
engine of `src/dubbing.py`, together with theorems settling the spec's claims.

Conventions of the embedding:
* Python floats are modelled as rationals (`ℚ`); the numeric literals of the
  source appear as the exact rationals `0.15 = 3/20`, `0.6 = 3/5`, `2.8 = 14/5`.
* Python strings are modelled as `List Char`; `str.strip()` becomes `strip`
  (drop leading and trailing whitespace) and the word count of `str.split()`
  becomes `contarPalavras`.
* A segment dict `{"text", "start", "duration"}` becomes the structure `Seg`;
  a missing `"start"`/`"duration"` key reads as `0.0` in the source
  (`seg.get(..., 0.0)`), so it is represented by the value `0`.
* External effects are modelled by their observable data: the ffmpeg audio
  filter chain built by `_ajustar_segmento_para_janela` becomes a `List Filtro`;
  the per-segment TTS/sync failures caught in the loop of
  `_gerar_audio_completo` become an oracle `falha : ℕ → Bool`; the exit status
  of the joint overlay-mix invocation becomes a boolean `mixOk`.
-/

/-- One transcript segment, the dict `{"text", "start", "duration"}` of
`src/dubbing.py`.  Text is a list of characters; times are rationals. -/
structure Seg where
  text : List Char
  start : ℚ
  duration : ℚ
deriving DecidableEq, Repr

/-- Python whitespace test used by `str.strip()` and `str.split()`. -/
def ehEspaco (c : Char) : Bool := c.isWhitespace

/-- Python `str.strip()`: drop leading and trailing whitespace. -/
def strip (s : List Char) : List Char :=
  ((s.dropWhile ehEspaco).reverse.dropWhile ehEspaco).reverse

/-- Word count of Python `len(s.split())`: the number of maximal
whitespace-free runs.  The boolean flag records whether the scan is currently
inside a run. -/
def contarPalavrasAux : Bool → List Char → ℕ
  | _, [] => 0
  | dentro, c :: resto =>
    if ehEspaco c then contarPalavrasAux false resto
    else (if dentro then 0 else 1) + contarPalavrasAux true resto

/-- `len(s.split())` of the source, line 150. -/
def contarPalavras (s : List Char) : ℕ := contarPalavrasAux false s

/-- The cleaning pass of `_normalizar_segmentos` (lines 129-136): strip the
text, drop the segment when the stripped text is empty, clamp `start` and
`duration` to `≥ 0`. -/
def limpar (seg : Seg) : Option Seg :=
  let texto := strip seg.text
  if texto = [] then none
  else some ⟨texto, max 0 seg.start, max 0 seg.duration⟩

/-- Sort key of `limpos.sort(key=lambda s: s["start"])`, line 138. -/
def chaveStart (a b : Seg) : Prop := a.start ≤ b.start

instance : DecidableRel chaveStart := fun a b =>
  inferInstanceAs (Decidable (a.start ≤ b.start))

instance : IsTotal Seg chaveStart := ⟨fun a b => le_total a.start b.start⟩

instance : IsTrans Seg chaveStart := ⟨fun _ _ _ hab hbc => le_trans hab hbc⟩

/-- The duration-repair loop of `_normalizar_segmentos` (lines 142-151): a
segment with `duration ≤ 0` gets `max(0.15, next.start - this.start)` when a
following segment exists, and otherwise `max(0.6, word_count / 2.8)`.  The
loop mutates only `duration` and reads only later `start` fields, so the
left-to-right mutation is equivalent to this structural recursion. -/
def repara : List Seg → List Seg
  | [] => []
  | [s] =>
    if 0 < s.duration then [s]
    else [⟨s.text, s.start, max (3/5) ((contarPalavras s.text : ℚ) / (14/5))⟩]
  | s :: t :: resto =>
    (if 0 < s.duration then s
     else ⟨s.text, s.start, max (3/20) (t.start - s.start)⟩) :: repara (t :: resto)

/-- `_normalizar_segmentos` (lines 125-153): clean, stable-sort by `start`,
then repair missing durations.  Python's `list.sort` is a stable sort by the
key, and `List.insertionSort chaveStart` (insert before the first strictly
larger key, scanning the input left to right) computes exactly that stable
sort, so the two agree as functions of the input list. -/
def _normalizar_segmentos (segmentos : List Seg) : List Seg :=
  repara (List.insertionSort chaveStart (segmentos.filterMap limpar))

/-- Rounding to six decimal places, the effect of the `f"atempo={x:.6f}"`
formatting on line 82. -/
def arred6 (q : ℚ) : ℚ := (round (q * 1000000) : ℚ) / 1000000

/-- Termination measure for the halving loop of `_cadeia_atempo`: while the
factor exceeds `2`, halving strictly decreases its ceiling. -/
theorem ceil_toNat_div2_lt (q : ℚ) (h : 2 < q) : (⌈q / 2⌉).toNat < (⌈q⌉).toNat := by
  have h3 : (3 : ℤ) ≤ ⌈q⌉ := by
    have : (2 : ℚ) < (⌈q⌉ : ℚ) := lt_of_lt_of_le h (Int.le_ceil q)
    exact_mod_cast this
  have hhalf : ⌈q / 2⌉ ≤ ⌈q⌉ - 1 := by
    have h1 : q / 2 ≤ q - 1 := by linarith
    calc ⌈q / 2⌉ ≤ ⌈q - 1⌉ := Int.ceil_mono h1
      _ = ⌈q⌉ - 1 := by
          have h2 := Int.ceil_sub_int q 1
          push_cast at h2
          exact h2
  omega

/-- The `while fator_restante > 2.0` loop of `_cadeia_atempo` (lines 78-82):
emit `2.0` stages while the remaining factor exceeds `2.0`, then emit the
remaining factor formatted with six decimals. -/
def cadeiaAtempoAux (fator : ℚ) : List ℚ :=
  if h : 2 < fator then 2 :: cadeiaAtempoAux (fator / 2) else [arred6 fator]
termination_by (⌈fator⌉).toNat
decreasing_by exact ceil_toNat_div2_lt fator h

/-- `_cadeia_atempo` (lines 70-83), abstracted to the list of numeric `atempo`
stage factors of the comma-joined filter string it returns: clamp the total
factor to `≥ 0.5`, halve while above `2.0`, emit the remainder. -/
def _cadeia_atempo (fator_total : ℚ) : List ℚ :=
  cadeiaAtempoAux (max (1/2) fator_total)

/-- One stage of the ffmpeg `-af` filter chain built by
`_ajustar_segmento_para_janela`. -/
inductive Filtro where
  | atempo (fator : ℚ)
  | apad (dur : ℚ)
  | atrim (dur : ℚ)
deriving DecidableEq, Repr

/-- `True` exactly on `atempo` stages. -/
def ehAtempo : Filtro → Bool
  | .atempo _ => true
  | _ => false

/-- `_ajustar_segmento_para_janela` (lines 86-122), abstracted to the filter
chain it passes to ffmpeg.  `duracao_real` is the probe result of
`_obter_duracao_audio`, which returns `0.0` on probe failure; the target is
clamped to `max(0.15, duracao_alvo)` on line 98 before any use. -/
def _ajustar_segmento_para_janela (duracao_real duracao_alvo : ℚ) : List Filtro :=
  let alvo := max (3/20) duracao_alvo
  if duracao_real ≤ 0 then
    [.apad alvo, .atrim alvo]
  else if alvo < duracao_real then
    (_cadeia_atempo (duracao_real / alvo)).map .atempo ++ [.apad alvo, .atrim alvo]
  else
    [.apad alvo, .atrim alvo]

/-- One synced clip appended to `arquivos_segmento` (lines 183-188): its file
is identified by the enumeration index `i` (`seg_{i:05d}.wav`), and it keeps
the segment's `start` and `duration`. -/
structure ClipInfo where
  start : ℚ
  duration : ℚ
  index : ℕ
deriving DecidableEq, Repr

/-- The per-segment synthesis-and-sync loop of `_gerar_audio_completo`
(lines 166-193): each normalized segment `i` whose TTS/sync raises (oracle
`falha i = true`) is caught and skipped; the others are appended in loop
order. -/
def sincronizar (norm : List Seg) (falha : ℕ → Bool) : List ClipInfo :=
  (norm.enum.filter (fun p => !falha p.1)).map (fun p => ⟨p.2.start, p.2.duration, p.1⟩)

/-- Python `max(iterable, default=0.0)`: the running maximum, `0` only for an
empty list. -/
def maxLista : List ℚ → ℚ
  | [] => 0
  | x :: xs => xs.foldl max x

/-- `duracao_total` of line 199: the maximum of `start + duration` over the
normalized segments (not over the synced clips), plus `1.0`. -/
def duracaoTotal (norm : List Seg) : ℚ :=
  maxLista (norm.map (fun s => s.start + s.duration)) + 1

/-- Python `int(x)`: truncation toward zero, used for `delay_ms` on line 219. -/
def intTrunca (q : ℚ) : ℤ := if q < 0 then ⌈q⌉ else ⌊q⌋

/-- `delay_ms = int(seg_info["start"] * 1000)`, line 219. -/
def delay_ms (start : ℚ) : ℤ := intTrunca (start * 1000)

/-- `_concatenar_simples` (lines 254-271), abstracted to the `concat_list.txt`
contents: the clip files, written in the order of `arquivos_segmento`, with
the `start` offsets nowhere consulted. -/
def _concatenar_simples (arquivos_segmento : List ClipInfo) : List ℕ :=
  arquivos_segmento.map (·.index)

/-- Outcome of `_gerar_audio_completo`: the overlay mix succeeded (with the
synced clips and the length of the silent base track), or the fallback
concatenation ran (with the concat list), or the `Exception` of line 196 was
raised. -/
inductive SaidaAudio where
  | mixado (clips : List ClipInfo) (duracaoBase : ℚ)
  | concatenado (arquivos : List ℕ)
  | falhou
deriving DecidableEq, Repr

/-- `_gerar_audio_completo` (lines 156-251): normalize, run the per-segment
loop, raise when no segment survived, otherwise build the silent base track of
length `duracao_total` and mix; on a nonzero mix exit status (`mixOk = false`)
fall back to `_concatenar_simples`. -/
def _gerar_audio_completo (segmentos : List Seg) (falha : ℕ → Bool) (mixOk : Bool) :
    SaidaAudio :=
  let norm := _normalizar_segmentos segmentos
  let clips := sincronizar norm falha
  if clips = [] then .falhou
  else if mixOk then .mixado clips (duracaoTotal norm)
  else .concatenado (_concatenar_simples clips)

/-! ### Stage-chain lemmas for `_cadeia_atempo` -/

theorem cadeiaAtempoAux_ne_nil (q : ℚ) : cadeiaAtempoAux q ≠ [] := by
  rw [cadeiaAtempoAux]
  split <;> simp

theorem arred6_mem (q : ℚ) (h1 : 1/2 ≤ q) (h2 : q ≤ 2) :
    1/2 ≤ arred6 q ∧ arred6 q ≤ 2 := by
  have hlo : (500000 : ℤ) ≤ round (q * 1000000) := by
    rw [round_eq, Int.le_floor]
    push_cast
    linarith
  have hhi : round (q * 1000000) ≤ (2000000 : ℤ) := by
    rw [round_eq]
    have : ⌊q * 1000000 + 1/2⌋ < (2000001 : ℤ) := by
      rw [Int.floor_lt]
      push_cast
      linarith
    omega
  have hlo2 : (500000 : ℚ) ≤ (round (q * 1000000) : ℚ) := by exact_mod_cast hlo
  have hhi2 : ((round (q * 1000000) : ℤ) : ℚ) ≤ 2000000 := by exact_mod_cast hhi
  rw [arred6]
  constructor <;> linarith

theorem cadeiaAtempoAux_mem (q : ℚ) (hq : 1/2 ≤ q) :
    ∀ s ∈ cadeiaAtempoAux q, 1/2 ≤ s ∧ s ≤ 2 := by
  rw [cadeiaAtempoAux]
  split
  · next h =>
    intro s hs
    rcases List.mem_cons.mp hs with h2 | h2
    · subst h2; norm_num
    · exact cadeiaAtempoAux_mem (q / 2) (by linarith) s h2
  · next h =>
    intro s hs
    rcases List.mem_singleton.mp hs with rfl
    exact arred6_mem q hq (by linarith)
termination_by (⌈q⌉).toNat
decreasing_by exact ceil_toNat_div2_lt q (by assumption)

theorem cadeiaAtempoAux_prod (q : ℚ) (hq : 1/2 ≤ q) :
    |(cadeiaAtempoAux q).prod - q| ≤ q / 1000000 := by
  rw [cadeiaAtempoAux]
  split
  · next h =>
    have ih := cadeiaAtempoAux_prod (q / 2) (by linarith)
    rw [List.prod_cons]
    have heq : 2 * (cadeiaAtempoAux (q / 2)).prod - q
        = 2 * ((cadeiaAtempoAux (q / 2)).prod - q / 2) := by ring
    rw [heq, abs_mul]
    rw [abs_of_pos (by norm_num : (0:ℚ) < 2)]
    calc 2 * |(cadeiaAtempoAux (q / 2)).prod - q / 2| ≤ 2 * (q / 2 / 1000000) := by linarith
      _ = q / 1000000 := by ring
  · next h =>
    rw [List.prod_singleton]
    have hr : |q * 1000000 - (round (q * 1000000) : ℚ)| ≤ 1/2 := abs_sub_round _
    have heq : arred6 q - q = ((round (q * 1000000) : ℚ) - q * 1000000) / 1000000 := by
      rw [arred6]; ring
    rw [heq, abs_div, abs_of_pos (by norm_num : (0:ℚ) < 1000000), abs_sub_comm]
    calc |q * 1000000 - (round (q * 1000000) : ℚ)| / 1000000 ≤ (1/2) / 1000000 := by linarith
      _ ≤ q / 1000000 := by linarith
termination_by (⌈q⌉).toNat
decreasing_by exact ceil_toNat_div2_lt q (by assumption)

theorem cadeia_atempo_cenario : _cadeia_atempo (5/2) = [2, 5/4] := by
  have h1 : max (1/2 : ℚ) (5/2) = 5/2 := by norm_num
  rw [_cadeia_atempo, h1, cadeiaAtempoAux, dif_pos (by norm_num : (2:ℚ) < 5/2),
    cadeiaAtempoAux, dif_neg (by norm_num : ¬ (2:ℚ) < 5/2/2)]
  have h2 : arred6 (5/2/2) = 5/4 := by
    rw [arred6, show (5/2/2 : ℚ) * 1000000 = ((1250000 : ℤ) : ℚ) by norm_num,
      round_intCast]
    norm_num
  rw [h2]

/-- C1: for every tempo ratio `R > 0` the stage chain of `_cadeia_atempo` is
non-empty, every stage lies in `[0.5, 2.0]`, for `R ∈ [0.5, 100]` the product
of the stages equals `R` within `1e-6` relative tolerance, and for `R = 5/2`
the chain is exactly `[2.0, 1.25]`. -/
theorem cadeia_atempo_correta (R : ℚ) (_hR : 0 < R) :
    _cadeia_atempo R ≠ [] ∧
    (∀ s ∈ _cadeia_atempo R, 1/2 ≤ s ∧ s ≤ 2) ∧
    (1/2 ≤ R → R ≤ 100 → |(_cadeia_atempo R).prod - R| ≤ R * (1/1000000)) ∧
    _cadeia_atempo (5/2) = [2, 5/4] := by
  refine ⟨cadeiaAtempoAux_ne_nil _, cadeiaAtempoAux_mem _ (le_max_left _ _), ?_,
    cadeia_atempo_cenario⟩
  intro hlo _
  have hmax : max (1/2 : ℚ) R = R := max_eq_right hlo
  rw [_cadeia_atempo, hmax, show R * (1/1000000) = R / 1000000 by ring]
  exact cadeiaAtempoAux_prod R hlo

theorem cadeia_atempo_correta_test :
    (0 : ℚ) < 5/2 ∧
    (_cadeia_atempo (5/2) ≠ [] ∧
      (∀ s ∈ _cadeia_atempo (5/2), 1/2 ≤ s ∧ s ≤ 2) ∧
      (1/2 ≤ (5/2 : ℚ) → (5/2 : ℚ) ≤ 100 →
        |(_cadeia_atempo (5/2)).prod - 5/2| ≤ 5/2 * (1/1000000)) ∧
      _cadeia_atempo (5/2) = [2, 5/4]) :=
  ⟨by norm_num, cadeia_atempo_correta (5/2) (by norm_num)⟩

/-! ### Synchronizer filter-plan claims -/

theorem ajustar_janela_eval_pequeno :
    _ajustar_segmento_para_janela (3/25) (1/10)
      = [Filtro.apad (3/20), Filtro.atrim (3/20)] := by
  rw [_ajustar_segmento_para_janela]
  rw [max_eq_left (by norm_num : (1/10 : ℚ) ≤ 3/20)]
  rw [if_neg (by norm_num : ¬ (3/25 : ℚ) ≤ 0),
    if_neg (by norm_num : ¬ (3/20 : ℚ) < 3/25)]

/-- C2, counterexample: for `real = 0.12`, `target = 0.1` the real duration
exceeds the target, yet the plan contains no `atempo` stage (the code compares
against the clamped target `0.15`), and no pad to the literal target `0.1`
appears. -/
theorem ajustar_janela_refuta :
    (1/10 : ℚ) < 3/25 ∧
    (_ajustar_segmento_para_janela (3/25) (1/10)).any ehAtempo = false ∧
    Filtro.apad (1/10) ∉ _ajustar_segmento_para_janela (3/25) (1/10) := by
  refine ⟨by norm_num, ?_, ?_⟩
  · rw [ajustar_janela_eval_pequeno]
    simp [ehAtempo]
  · rw [ajustar_janela_eval_pequeno]
    simp only [List.mem_cons, List.mem_singleton, List.not_mem_nil, or_false]
    push_neg
    constructor
    · intro h
      injection h with h
      norm_num at h
    · intro h
      exact Filtro.noConfusion h

/-- C2, amended: for every pair with `target ≥ 0.15` (the invariant the
Normalizer guarantees on segment windows), the plan of
`_ajustar_segmento_para_janela` ends with a pad-to-target followed by a
hard-trim-to-target in all three cases, and an `atempo` stage is included if
and only if `real > target`. -/
theorem ajustar_janela_plano (duracao_real duracao_alvo : ℚ)
    (h : 3/20 ≤ duracao_alvo) :
    [Filtro.apad duracao_alvo, Filtro.atrim duracao_alvo]
      <:+ _ajustar_segmento_para_janela duracao_real duracao_alvo ∧
    ((_ajustar_segmento_para_janela duracao_real duracao_alvo).any ehAtempo = true
      ↔ duracao_alvo < duracao_real) := by
  have halvo : max (3/20 : ℚ) duracao_alvo = duracao_alvo := max_eq_right h
  rw [_ajustar_segmento_para_janela]
  simp only [halvo]
  by_cases h1 : duracao_real ≤ 0
  · rw [if_pos h1]
    refine ⟨List.suffix_refl _, ?_⟩
    constructor
    · intro hany
      simp [ehAtempo] at hany
    · intro hlt
      exact absurd (lt_trans (lt_of_lt_of_le (by norm_num) h) hlt) (not_lt.mpr h1)
  · rw [if_neg h1]
    by_cases h2 : duracao_alvo < duracao_real
    · rw [if_pos h2]
      refine ⟨List.suffix_append _ _, ?_⟩
      simp only [List.any_append, Bool.or_eq_true, iff_true_intro h2, iff_true]
      left
      rw [List.any_eq_true]
      obtain ⟨s, hs⟩ := List.exists_mem_of_ne_nil _ (cadeiaAtempoAux_ne_nil
        (max (1/2) (duracao_real / duracao_alvo)))
      exact ⟨Filtro.atempo s, List.mem_map_of_mem _ hs, rfl⟩
    · rw [if_neg h2]
      refine ⟨List.suffix_refl _, ?_⟩
      constructor
      · intro hany
        simp [ehAtempo] at hany
      · intro hlt
        exact absurd hlt h2

theorem ajustar_janela_plano_test :
    (3/20 : ℚ) ≤ 2 ∧
    ([Filtro.apad 2, Filtro.atrim 2] <:+ _ajustar_segmento_para_janela 5 2 ∧
      ((_ajustar_segmento_para_janela 5 2).any ehAtempo = true ↔ (2 : ℚ) < 5)) :=
  ⟨by norm_num, ajustar_janela_plano 5 2 (by norm_num)⟩

/-- C9: the target window is clamped to `max(0.15, target)` before any use,
so the effective target (the divisor of the over-length branch) is positive
and every emitted pad/trim duration is at least `0.15`, for every input
including zero, negative and sub-`0.15` targets. -/
theorem ajustar_janela_clampa_alvo (duracao_real duracao_alvo : ℚ) :
    0 < max (3/20) duracao_alvo ∧
    (∀ d, Filtro.apad d ∈ _ajustar_segmento_para_janela duracao_real duracao_alvo →
      3/20 ≤ d) ∧
    (∀ d, Filtro.atrim d ∈ _ajustar_segmento_para_janela duracao_real duracao_alvo →
      3/20 ≤ d) := by
  refine ⟨lt_of_lt_of_le (by norm_num) (le_max_left _ _), ?_, ?_⟩ <;>
  · intro d hd
    rw [_ajustar_segmento_para_janela] at hd
    split at hd
    · simp at hd
      subst hd
      exact le_max_left _ _
    · split at hd <;> simp at hd <;> subst hd <;> exact le_max_left _ _

theorem ajustar_janela_clampa_test :
    (0 : ℚ) < max (3/20) 0 ∧ (3/20 : ℚ) ≤ 3/20 :=
  ⟨(ajustar_janela_clampa_alvo (1/10) 0).1,
    (ajustar_janela_clampa_alvo (1/10) 0).2.1 (3/20)
      (by
        rw [_ajustar_segmento_para_janela]
        rw [max_eq_left (by norm_num : (0 : ℚ) ≤ 3/20)]
        rw [if_neg (by norm_num : ¬ (1/10 : ℚ) ≤ 0),
          if_neg (by norm_num : ¬ (3/20 : ℚ) < 1/10)]
        simp)⟩

/-! ### Normalizer lemmas -/

theorem dropWhile_dropWhile {α : Type} (p : α → Bool) (l : List α) :
    (l.dropWhile p).dropWhile p = l.dropWhile p := by
  induction l with
  | nil => rfl
  | cons c l ih =>
    by_cases h : p c
    · rw [List.dropWhile_cons_of_pos h]
      exact ih
    · rw [List.dropWhile_cons_of_neg h, List.dropWhile_cons_of_neg h]

theorem dropWhile_eq_self_de_prefixo {α : Type} (p : α → Bool) {t u : List α}
    (hu : u <+: t) (ht : t.dropWhile p = t) : u.dropWhile p = u := by
  cases u with
  | nil => rfl
  | cons c u =>
    obtain ⟨r, hr⟩ := hu
    have hc : p c = false := by
      cases h : p c
      · rfl
      · rw [← hr, List.cons_append, List.dropWhile_cons_of_pos h] at ht
        have hsuf : List.dropWhile p (u ++ r) <:+ (u ++ r) := List.dropWhile_suffix p
        have hlen := hsuf.sublist.length_le
        have := congrArg List.length ht
        simp at this hlen
        omega
    rw [List.dropWhile_cons_of_neg (by simp [hc])]

/-- Python `strip()` is idempotent. -/
theorem strip_idem (s : List Char) : strip (strip s) = strip s := by
  have hu : strip s = ((s.dropWhile ehEspaco).reverse.dropWhile ehEspaco).reverse := rfl
  have h1 : (strip s).reverse.dropWhile ehEspaco = (strip s).reverse := by
    rw [hu, List.reverse_reverse]
    exact dropWhile_dropWhile _ _
  have h2 : (strip s).dropWhile ehEspaco = strip s := by
    have hsuf : List.dropWhile ehEspaco ((s.dropWhile ehEspaco).reverse)
        <:+ (s.dropWhile ehEspaco).reverse := List.dropWhile_suffix _
    have hpre := List.reverse_prefix.mpr hsuf
    rw [List.reverse_reverse] at hpre
    rw [hu]
    exact dropWhile_eq_self_de_prefixo ehEspaco hpre (dropWhile_dropWhile _ _)
  show (((strip s).dropWhile ehEspaco).reverse.dropWhile ehEspaco).reverse = strip s
  rw [h2, h1, List.reverse_reverse]

theorem limpar_some {t s : Seg} (h : limpar t = some s) :
    s.text = strip t.text ∧ s.text ≠ [] ∧ s.start = max 0 t.start ∧
      s.duration = max 0 t.duration := by
  simp only [limpar] at h
  by_cases hc : strip t.text = []
  · rw [if_pos hc] at h
    exact absurd h (by simp)
  · rw [if_neg hc] at h
    injection h with h
    subst h
    exact ⟨rfl, hc, rfl, rfl⟩

theorem limpar_fixo {s : Seg} (h1 : strip s.text = s.text) (h2 : s.text ≠ [])
    (h3 : 0 ≤ s.start) (h4 : 0 ≤ s.duration) : limpar s = some s := by
  obtain ⟨tx, st, du⟩ := s
  simp only [limpar] at h1 h2 h3 h4 ⊢
  rw [h1, if_neg h2, max_eq_right h3, max_eq_right h4]

theorem filterMap_limpar_fixo : ∀ (l : List Seg), (∀ s ∈ l, limpar s = some s) →
    l.filterMap limpar = l := by
  intro l h
  induction l with
  | nil => rfl
  | cons s l ih =>
    rw [List.filterMap_cons, h s (List.mem_cons_self s l),
      ih (fun u hu => h u (List.mem_cons_of_mem s hu))]

theorem repara_pos : ∀ (l : List Seg), ∀ s ∈ repara l, 0 < s.duration := by
  intro l
  induction l with
  | nil => intro s hs; simp [repara] at hs
  | cons x l ih =>
    cases l with
    | nil =>
      intro s hs
      rw [repara] at hs
      split at hs
      · next hx => rcases List.mem_singleton.mp hs with rfl; exact hx
      · rcases List.mem_singleton.mp hs with rfl
        exact lt_of_lt_of_le (by norm_num) (le_max_left _ _)
    | cons y resto =>
      intro s hs
      rw [repara] at hs
      rcases List.mem_cons.mp hs with rfl | hmem
      · split
        · next hx => exact hx
        · exact lt_of_lt_of_le (by norm_num) (le_max_left _ _)
      · exact ih s hmem

theorem repara_mem : ∀ (l : List Seg), ∀ s ∈ repara l,
    ∃ u ∈ l, s.text = u.text ∧ s.start = u.start ∧ (s = u ∨ 3/20 ≤ s.duration) := by
  intro l
  induction l with
  | nil => intro s hs; simp [repara] at hs
  | cons x l ih =>
    cases l with
    | nil =>
      intro s hs
      rw [repara] at hs
      split at hs
      · rcases List.mem_singleton.mp hs with rfl
        exact ⟨s, List.mem_cons_self _ _, rfl, rfl, Or.inl rfl⟩
      · rcases List.mem_singleton.mp hs with rfl
        refine ⟨x, List.mem_cons_self _ _, rfl, rfl, Or.inr ?_⟩
        calc (3/20 : ℚ) ≤ 3/5 := by norm_num
          _ ≤ max (3/5) ((contarPalavras x.text : ℚ) / (14/5)) := le_max_left _ _
    | cons y resto =>
      intro s hs
      rw [repara] at hs
      rcases List.mem_cons.mp hs with rfl | hmem
      · split
        · exact ⟨_, List.mem_cons_self _ _, rfl, rfl, Or.inl rfl⟩
        · exact ⟨x, List.mem_cons_self _ _, rfl, rfl, Or.inr (le_max_left _ _)⟩
      · obtain ⟨u, hu, h1, h2, h3⟩ := ih s hmem
        exact ⟨u, List.mem_cons_of_mem x hu, h1, h2, h3⟩

theorem repara_map_start : ∀ (l : List Seg),
    (repara l).map Seg.start = l.map Seg.start := by
  intro l
  induction l with
  | nil => rfl
  | cons x l ih =>
    cases l with
    | nil =>
      rw [repara]
      split <;> rfl
    | cons y resto =>
      rw [repara]
      show Seg.start _ :: _ = _
      rw [List.map_cons, ih]
      split <;> rfl

theorem repara_id : ∀ (l : List Seg), (∀ s ∈ l, 0 < s.duration) → repara l = l := by
  intro l h
  induction l with
  | nil => rfl
  | cons x l ih =>
    cases l with
    | nil => rw [repara, if_pos (h x (List.mem_cons_self _ _))]
    | cons y resto =>
      rw [repara, if_pos (h x (List.mem_cons_self _ _)),
        ih (fun u hu => h u (List.mem_cons_of_mem x hu))]

theorem normalizar_membro {segs : List Seg} {s : Seg}
    (h : s ∈ _normalizar_segmentos segs) :
    ∃ u, u ∈ segs.filterMap limpar ∧ s.text = u.text ∧ s.start = u.start ∧
      (s = u ∨ 3/20 ≤ s.duration) := by
  rw [_normalizar_segmentos] at h
  obtain ⟨u, hu, h1, h2, h3⟩ := repara_mem _ s h
  exact ⟨u, (List.mem_insertionSort chaveStart).mp hu, h1, h2, h3⟩

theorem normalizar_basico (segs : List Seg) :
    ∀ s ∈ _normalizar_segmentos segs,
      strip s.text = s.text ∧ s.text ≠ [] ∧ 0 ≤ s.start ∧ 0 < s.duration := by
  intro s hs
  have hpos : 0 < s.duration := by
    rw [_normalizar_segmentos] at hs
    exact repara_pos _ s hs
  obtain ⟨u, hu, h1, h2, _⟩ := normalizar_membro hs
  obtain ⟨t, _, hlim⟩ := List.mem_filterMap.mp hu
  obtain ⟨e1, e2, e3, _⟩ := limpar_some hlim
  refine ⟨?_, ?_, ?_, hpos⟩
  · rw [h1, e1, strip_idem]
  · rw [h1]
    exact e2
  · rw [h2, e3]
    exact le_max_left 0 _

theorem normalizar_ordenado (segs : List Seg) :
    List.Pairwise chaveStart (_normalizar_segmentos segs) := by
  rw [_normalizar_segmentos]
  have hsort : List.Sorted chaveStart
      (List.insertionSort chaveStart (segs.filterMap limpar)) :=
    List.sorted_insertionSort chaveStart _
  have h1 : List.Pairwise (fun a b : ℚ => a ≤ b)
      ((repara (List.insertionSort chaveStart (segs.filterMap limpar))).map
        Seg.start) := by
    rw [repara_map_start]
    exact List.pairwise_map.mpr hsort
  have h2 := List.pairwise_map.mp h1
  exact h2

theorem normalizar_pequena_eval :
    _normalizar_segmentos [⟨['a'], 0, 1/10⟩] = [⟨['a'], 0, 1/10⟩] := by
  have hl : limpar ⟨['a'], 0, 1/10⟩ = some ⟨['a'], 0, 1/10⟩ :=
    limpar_fixo (by decide) (by decide) le_rfl (by norm_num)
  have hf : ([⟨['a'], 0, 1/10⟩] : List Seg).filterMap limpar
      = [⟨['a'], 0, 1/10⟩] := by
    rw [List.filterMap_cons, hl]
    rfl
  rw [_normalizar_segmentos, hf,
    show List.insertionSort chaveStart [(⟨['a'], 0, 1/10⟩ : Seg)]
      = [(⟨['a'], 0, 1/10⟩ : Seg)] from rfl]
  exact repara_id _ (by
    intro u hu
    rcases List.mem_singleton.mp hu with rfl
    norm_num)

/-- C4, counterexample: a segment arriving with the positive duration
`0.1 < 0.15` passes through the Normalizer unchanged (the repair loop skips
every positive duration), so the output violates `duration ≥ 0.15`. -/
theorem normalizar_refuta_minimo :
    _normalizar_segmentos [⟨['a'], 0, 1/10⟩] = [⟨['a'], 0, 1/10⟩] ∧
    (1/10 : ℚ) < 3/20 :=
  ⟨normalizar_pequena_eval, by norm_num⟩

/-- C4, amended: for every input list the Normalizer's output is sorted
ascending by `start`, has no empty or whitespace-only text, every `start ≥ 0`
and every `duration > 0`; a duration below `0.15` can only be a positive
duration that arrived in the input and was kept unchanged (inferred durations
are all `≥ 0.15`). -/
theorem normalizar_invariantes (segs : List Seg) :
    List.Pairwise chaveStart (_normalizar_segmentos segs) ∧
    (∀ s ∈ _normalizar_segmentos segs,
      s.text ≠ [] ∧ strip s.text = s.text ∧ 0 ≤ s.start ∧ 0 < s.duration ∧
      (s.duration < 3/20 → ∃ t ∈ segs, 0 < t.duration ∧ s.duration = t.duration)) := by
  refine ⟨normalizar_ordenado segs, ?_⟩
  intro s hs
  obtain ⟨hstrip, hne, hstart, hpos⟩ := normalizar_basico segs s hs
  refine ⟨hne, hstrip, hstart, hpos, ?_⟩
  intro hlt
  obtain ⟨u, hu, _, _, hcase⟩ := normalizar_membro hs
  rcases hcase with rfl | hge
  · obtain ⟨t, ht, hlim⟩ := List.mem_filterMap.mp hu
    obtain ⟨_, _, _, e4⟩ := limpar_some hlim
    have htp : 0 < t.duration := by
      by_contra hneg
      push_neg at hneg
      rw [e4, max_eq_left hneg] at hpos
      exact absurd hpos (by norm_num)
    refine ⟨t, ht, htp, ?_⟩
    rw [e4]
    exact max_eq_right (le_of_lt htp)
  · exact absurd hlt (not_lt.mpr hge)

theorem normalizar_um_eval :
    _normalizar_segmentos [⟨['a'], 0, 2⟩] = [⟨['a'], 0, 2⟩] := by
  have hl : limpar ⟨['a'], 0, 2⟩ = some ⟨['a'], 0, 2⟩ :=
    limpar_fixo (by decide) (by decide) le_rfl (by norm_num)
  have hf : ([⟨['a'], 0, 2⟩] : List Seg).filterMap limpar = [⟨['a'], 0, 2⟩] := by
    rw [List.filterMap_cons, hl]
    rfl
  rw [_normalizar_segmentos, hf,
    show List.insertionSort chaveStart [(⟨['a'], 0, 2⟩ : Seg)]
      = [(⟨['a'], 0, 2⟩ : Seg)] from rfl]
  exact repara_id _ (by
    intro u hu
    rcases List.mem_singleton.mp hu with rfl
    norm_num)

theorem normalizar_invariantes_test :
    (⟨['a'], 0, 2⟩ : Seg).text ≠ [] ∧ strip (⟨['a'], 0, 2⟩ : Seg).text
        = (⟨['a'], 0, 2⟩ : Seg).text ∧
      0 ≤ (⟨['a'], 0, 2⟩ : Seg).start ∧ 0 < (⟨['a'], 0, 2⟩ : Seg).duration ∧
      ((⟨['a'], 0, 2⟩ : Seg).duration < 3/20 →
        ∃ t ∈ [(⟨['a'], 0, 2⟩ : Seg)], 0 < t.duration ∧
          (⟨['a'], 0, 2⟩ : Seg).duration = t.duration) :=
  (normalizar_invariantes [⟨['a'], 0, 2⟩]).2 ⟨['a'], 0, 2⟩
    (by rw [normalizar_um_eval]; exact List.mem_singleton.mpr rfl)

/-- C10: the Normalizer is idempotent — applying it to its own output
returns the output unchanged, because every output entry already has stripped
non-empty text, `start ≥ 0`, strictly positive duration, and the list is
sorted by `start`. -/
theorem normalizar_idempotente (segs : List Seg) :
    _normalizar_segmentos (_normalizar_segmentos segs)
      = _normalizar_segmentos segs := by
  have hfix : (_normalizar_segmentos segs).filterMap limpar
      = _normalizar_segmentos segs := by
    apply filterMap_limpar_fixo
    intro s hs
    obtain ⟨h1, h2, h3, h4⟩ := normalizar_basico segs s hs
    exact limpar_fixo h1 h2 h3 (le_of_lt h4)
  have hsorted : List.insertionSort chaveStart (_normalizar_segmentos segs)
      = _normalizar_segmentos segs :=
    List.Sorted.insertionSort_eq (normalizar_ordenado segs)
  have hrep : repara (_normalizar_segmentos segs) = _normalizar_segmentos segs :=
    repara_id _ (fun s hs => (normalizar_basico segs s hs).2.2.2)
  calc _normalizar_segmentos (_normalizar_segmentos segs)
      = repara (List.insertionSort chaveStart
          ((_normalizar_segmentos segs).filterMap limpar)) := rfl
    _ = _normalizar_segmentos segs := by rw [hfix, hsorted, hrep]

theorem repara_getElem (l : List Seg) :
    ∀ (i : ℕ) (s : Seg), l[i]? = some s → s.duration ≤ 0 →
      (∀ t, l[i+1]? = some t →
        (repara l)[i]? = some ⟨s.text, s.start, max (3/20) (t.start - s.start)⟩) ∧
      (l[i+1]? = none →
        (repara l)[i]? = some ⟨s.text, s.start,
          max (3/5) ((contarPalavras s.text : ℚ) / (14/5))⟩) := by
  induction l with
  | nil => intro i s hs; simp at hs
  | cons x l ih =>
    cases l with
    | nil =>
      intro i s hs hdur
      cases i with
      | zero =>
        simp only [List.getElem?_cons_zero, Option.some.injEq] at hs
        subst hs
        constructor
        · intro t ht
          simp at ht
        · intro _
          rw [repara, if_neg (not_lt.mpr hdur), List.getElem?_cons_zero]
      | succ j =>
        simp at hs
    | cons y resto =>
      intro i s hs hdur
      cases i with
      | zero =>
        simp only [List.getElem?_cons_zero, Option.some.injEq] at hs
        subst hs
        constructor
        · intro t ht
          simp only [List.getElem?_cons_succ, List.getElem?_cons_zero,
            Option.some.injEq] at ht
          subst ht
          rw [repara, if_neg (not_lt.mpr hdur), List.getElem?_cons_zero]
        · intro hnone
          simp at hnone
      | succ j =>
        rw [List.getElem?_cons_succ] at hs
        have hsub := ih j s hs hdur
        constructor
        · intro t ht
          rw [List.getElem?_cons_succ] at ht
          rw [repara, List.getElem?_cons_succ]
          exact hsub.1 t ht
        · intro hnone
          rw [List.getElem?_cons_succ] at hnone
          rw [repara, List.getElem?_cons_succ]
          exact hsub.2 hnone

theorem normalizar_cenario :
    _normalizar_segmentos [⟨['a'], 0, 2⟩, ⟨['b'], 3, 0⟩]
      = [⟨['a'], 0, 2⟩, ⟨['b'], 3, 3/5⟩] := by
  have hla : limpar ⟨['a'], 0, 2⟩ = some ⟨['a'], 0, 2⟩ :=
    limpar_fixo (by decide) (by decide) le_rfl (by norm_num)
  have hlb : limpar ⟨['b'], 3, 0⟩ = some ⟨['b'], 3, 0⟩ :=
    limpar_fixo (by decide) (by decide) (by norm_num) le_rfl
  have hf : ([⟨['a'], 0, 2⟩, ⟨['b'], 3, 0⟩] : List Seg).filterMap limpar
      = [⟨['a'], 0, 2⟩, ⟨['b'], 3, 0⟩] := by
    apply filterMap_limpar_fixo
    intro s hs
    rcases List.mem_cons.mp hs with rfl | hs
    · exact hla
    · rcases List.mem_singleton.mp hs with rfl
      exact hlb
  have hsorted : List.insertionSort chaveStart
      ([⟨['a'], 0, 2⟩, ⟨['b'], 3, 0⟩] : List Seg)
      = [⟨['a'], 0, 2⟩, ⟨['b'], 3, 0⟩] := by
    apply List.Sorted.insertionSort_eq
    refine List.Pairwise.cons ?_ (List.pairwise_singleton _ _)
    intro b hb
    rcases List.mem_singleton.mp hb with rfl
    show (0 : ℚ) ≤ 3
    norm_num
  rw [_normalizar_segmentos, hf, hsorted, repara,
    if_pos (show (0:ℚ) < (Seg.mk ['a'] 0 2).duration by norm_num), repara,
    if_neg (show ¬ (0:ℚ) < (Seg.mk ['b'] 3 0).duration by norm_num),
    show contarPalavras (Seg.mk ['b'] 3 0).text = 1 from by decide]
  rw [show ((1:ℕ) : ℚ) = 1 from by norm_num,
    max_eq_left (by norm_num : (1:ℚ)/(14/5) ≤ 3/5)]

/-- C6: a segment whose duration is missing (read as `0`) or `≤ 0` gets the
duration `max(0.15, next.start - this.start)` when a following segment
exists, and otherwise `max(0.6, word_count / 2.8)`; in particular for the
input `[{"a",0,2},{"b",3,0}]` the second segment gets the word-count
estimate `0.6`, never `0`. -/
theorem normalizar_inferencia_duracao :
    (∀ (l : List Seg) (i : ℕ) (s : Seg), l[i]? = some s → s.duration ≤ 0 →
      (∀ t, l[i+1]? = some t →
        (repara l)[i]? = some ⟨s.text, s.start, max (3/20) (t.start - s.start)⟩) ∧
      (l[i+1]? = none →
        (repara l)[i]? = some ⟨s.text, s.start,
          max (3/5) ((contarPalavras s.text : ℚ) / (14/5))⟩)) ∧
    _normalizar_segmentos [⟨['a'], 0, 2⟩, ⟨['b'], 3, 0⟩]
      = [⟨['a'], 0, 2⟩, ⟨['b'], 3, 3/5⟩] ∧
    (3/5 : ℚ) ≠ 0 :=
  ⟨repara_getElem, normalizar_cenario, by norm_num⟩

theorem normalizar_inferencia_test :
    ([(⟨['b'], 3, 0⟩ : Seg)] : List Seg)[0]? = some ⟨['b'], 3, 0⟩ ∧
    (⟨['b'], 3, 0⟩ : Seg).duration ≤ 0 ∧
    ([(⟨['b'], 3, 0⟩ : Seg)] : List Seg)[1]? = none ∧
    (repara [⟨['b'], 3, 0⟩])[0]? = some ⟨['b'], 3,
      max (3/5) ((contarPalavras ['b'] : ℚ) / (14/5))⟩ :=
  ⟨rfl, le_rfl, rfl,
    (normalizar_inferencia_duracao.1 [⟨['b'], 3, 0⟩] 0 ⟨['b'], 3, 0⟩ rfl le_rfl).2 rfl⟩

/-! ### Timeline assembler claims -/

/-- C5, counterexample: at `start = 0.0019` the source computes
`int(0.0019 * 1000) = int(1.9) = 1`, while the claimed nearest-integer
rounding of `1.9` is `2`. -/
theorem delay_ms_refuta :
    delay_ms (19/10000) = 1 ∧ round ((19/10000 : ℚ) * 1000) = 2 ∧
    delay_ms (19/10000) ≠ round ((19/10000 : ℚ) * 1000) := by
  have h1 : delay_ms (19/10000) = 1 := by
    rw [delay_ms, intTrunca, if_neg (by norm_num : ¬ (19/10000 : ℚ) * 1000 < 0),
      show (19/10000 : ℚ) * 1000 = 19/10 by norm_num]
    rw [Int.floor_eq_iff]
    norm_num
  have h2 : round ((19/10000 : ℚ) * 1000) = 2 := by
    rw [show (19/10000 : ℚ) * 1000 = 19/10 by norm_num, round_eq,
      show (19/10 : ℚ) + 1/2 = 12/5 by norm_num]
    rw [Int.floor_eq_iff]
    norm_num
  exact ⟨h1, h2, by rw [h1, h2]; norm_num⟩

/-- C5, amended: the integer millisecond delay is Python `int(start * 1000)`,
truncation toward zero — for every non-negative start this is the floor of
`start * 1000`, not its nearest-integer rounding. -/
theorem delay_ms_trunca (start : ℚ) (h : 0 ≤ start) :
    delay_ms start = ⌊start * 1000⌋ := by
  rw [delay_ms, intTrunca,
    if_neg (not_lt.mpr (mul_nonneg h (by norm_num)))]

theorem delay_ms_trunca_test :
    (0 : ℚ) ≤ 19/10000 ∧ delay_ms (19/10000) = ⌊(19/10000 : ℚ) * 1000⌋ :=
  ⟨by norm_num, delay_ms_trunca (19/10000) (by norm_num)⟩

theorem sincronizar_indices (norm : List Seg) (falha : ℕ → Bool) :
    (sincronizar norm falha).map ClipInfo.index
      = (List.range norm.length).filter (fun i => !falha i) := by
  rw [sincronizar, List.map_map]
  have hcomp : (ClipInfo.index ∘ fun p : ℕ × Seg =>
      (⟨p.2.start, p.2.duration, p.1⟩ : ClipInfo)) = Prod.fst := rfl
  rw [hcomp]
  have hpred : (fun p : ℕ × Seg => !falha p.1)
      = (fun i => !falha i) ∘ Prod.fst := rfl
  rw [hpred, ← List.filter_map]
  rw [List.enum_eq_enumFrom, List.enumFrom_map_fst, ← List.range_eq_range']

theorem sincronizar_nao_vazio {norm : List Seg} {falha : ℕ → Bool} {i : ℕ}
    (hi : i < norm.length) (hfi : falha i = false) :
    sincronizar norm falha ≠ [] := by
  have hlen : i < norm.enum.length := by
    rw [List.enum_eq_enumFrom, List.enumFrom_length]
    exact hi
  have hmem : norm.enum[i] ∈ norm.enum := List.getElem_mem hlen
  have hkeep : norm.enum[i] ∈ norm.enum.filter (fun p => !falha p.1) := by
    rw [List.mem_filter]
    refine ⟨hmem, ?_⟩
    rw [List.getElem_enum]
    simp [hfi]
  intro hnil
  rw [sincronizar] at hnil
  rw [List.map_eq_nil_iff] at hnil
  rw [hnil] at hkeep
  exact List.not_mem_nil _ hkeep

/-- C7: inside the per-segment loop every single segment failure is caught
and skipped, and the job raises (result `falhou`) iff zero segments were
successfully synced; whenever some normalized segment `i` does not fail,
assembly proceeds. -/
theorem gerar_audio_falha_sse_zero (segmentos : List Seg) (falha : ℕ → Bool)
    (mixOk : Bool) :
    (_gerar_audio_completo segmentos falha mixOk = SaidaAudio.falhou
      ↔ sincronizar (_normalizar_segmentos segmentos) falha = []) ∧
    (∀ i, i < (_normalizar_segmentos segmentos).length → falha i = false →
      _gerar_audio_completo segmentos falha mixOk ≠ SaidaAudio.falhou) := by
  have hiff : _gerar_audio_completo segmentos falha mixOk = SaidaAudio.falhou
      ↔ sincronizar (_normalizar_segmentos segmentos) falha = [] := by
    simp only [_gerar_audio_completo]
    by_cases h : sincronizar (_normalizar_segmentos segmentos) falha = []
    · rw [if_pos h]
      simp [h]
    · rw [if_neg h]
      constructor
      · intro hc
        split at hc <;> exact absurd hc (by simp)
      · intro hc
        exact absurd hc h
  refine ⟨hiff, ?_⟩
  intro i hi hfi hc
  exact sincronizar_nao_vazio hi hfi (hiff.mp hc)

theorem gerar_audio_falha_test :
    (0 < (_normalizar_segmentos [⟨['a'], 0, 2⟩]).length ∧
      (fun _ : ℕ => false) 0 = false) ∧
    _gerar_audio_completo [⟨['a'], 0, 2⟩] (fun _ => false) true
      ≠ SaidaAudio.falhou :=
  ⟨⟨by rw [normalizar_um_eval]; norm_num, rfl⟩,
    (gerar_audio_falha_sse_zero [⟨['a'], 0, 2⟩] (fun _ => false) true).2 0
      (by rw [normalizar_um_eval]; norm_num) rfl⟩

/-- C8: when the joint overlay mix fails, the pipeline does not fail — it
returns the fallback concatenation, whose file list is exactly the synced
clips in strictly increasing original segment order, with the `start`
offsets nowhere consulted. -/
theorem fallback_concat_ordem (segmentos : List Seg) (falha : ℕ → Bool)
    (h : sincronizar (_normalizar_segmentos segmentos) falha ≠ []) :
    _gerar_audio_completo segmentos falha false
      = SaidaAudio.concatenado
          ((List.range (_normalizar_segmentos segmentos).length).filter
            (fun i => !falha i)) := by
  simp only [_gerar_audio_completo]
  rw [if_neg h, if_neg (by simp)]
  rw [_concatenar_simples, sincronizar_indices]

theorem fallback_concat_ordem_test :
    sincronizar (_normalizar_segmentos [⟨['a'], 0, 2⟩]) (fun _ => false) ≠ [] ∧
    _gerar_audio_completo [⟨['a'], 0, 2⟩] (fun _ => false) false
      = SaidaAudio.concatenado
          ((List.range (_normalizar_segmentos [⟨['a'], 0, 2⟩]).length).filter
            (fun i => !(fun _ : ℕ => false) i)) :=
  ⟨by rw [normalizar_um_eval]; simp [sincronizar],
    fallback_concat_ordem [⟨['a'], 0, 2⟩] (fun _ => false)
      (by rw [normalizar_um_eval]; simp [sincronizar])⟩

theorem sincronizar_todos (norm : List Seg) :
    (sincronizar norm (fun _ => false)).map (fun c => c.start + c.duration)
      = norm.map (fun s => s.start + s.duration) := by
  rw [sincronizar, List.map_map]
  simp only [Bool.not_false, List.filter_true]
  have hcomp : ((fun c : ClipInfo => c.start + c.duration) ∘
      (fun p : ℕ × Seg => (⟨p.2.start, p.2.duration, p.1⟩ : ClipInfo)))
      = ((fun s : Seg => s.start + s.duration) ∘ Prod.snd) := rfl
  rw [hcomp, ← List.map_map, List.enum_eq_enumFrom, List.enumFrom_map_snd]

theorem normalizar_dois_eval :
    _normalizar_segmentos [⟨['a'], 0, 1⟩, ⟨['b'], 10, 5⟩]
      = [⟨['a'], 0, 1⟩, ⟨['b'], 10, 5⟩] := by
  have hf : ([⟨['a'], 0, 1⟩, ⟨['b'], 10, 5⟩] : List Seg).filterMap limpar
      = [⟨['a'], 0, 1⟩, ⟨['b'], 10, 5⟩] := by
    apply filterMap_limpar_fixo
    intro s hs
    rcases List.mem_cons.mp hs with rfl | hs
    · exact limpar_fixo (by decide) (by decide) le_rfl (by norm_num)
    · rcases List.mem_singleton.mp hs with rfl
      exact limpar_fixo (by decide) (by decide) (by norm_num) (by norm_num)
  have hsorted : List.insertionSort chaveStart
      ([⟨['a'], 0, 1⟩, ⟨['b'], 10, 5⟩] : List Seg)
      = [⟨['a'], 0, 1⟩, ⟨['b'], 10, 5⟩] := by
    apply List.Sorted.insertionSort_eq
    refine List.Pairwise.cons ?_ (List.pairwise_singleton _ _)
    intro b hb
    rcases List.mem_singleton.mp hb with rfl
    show (0 : ℚ) ≤ 10
    norm_num
  rw [_normalizar_segmentos, hf, hsorted]
  apply repara_id
  intro s hs
  rcases List.mem_cons.mp hs with rfl | hs
  · norm_num
  · rcases List.mem_singleton.mp hs with rfl
    norm_num

/-- C3, counterexample: with segments `[("a",0,1), ("b",10,5)]` where the
second segment's sync fails and is skipped, the synced clips reaching
assembly have `max(start+duration) = T = 1`, yet the silent base track is
built with length `16`, not `T + 1 = 2` — `duracao_total` is computed over
all normalized segments, skipped ones included. -/
theorem duracao_total_refuta :
    _gerar_audio_completo [⟨['a'], 0, 1⟩, ⟨['b'], 10, 5⟩] (fun i => i == 1) true
      = SaidaAudio.mixado [⟨0, 1, 0⟩] 16 ∧
    maxLista ([(⟨0, 1, 0⟩ : ClipInfo)].map (fun c => c.start + c.duration)) + 1
      = 2 ∧
    (16 : ℚ) ≠ 2 := by
  have hsinc : sincronizar [⟨['a'], 0, 1⟩, ⟨['b'], 10, 5⟩] (fun i => i == 1)
      = [⟨0, 1, 0⟩] := rfl
  have hdt : duracaoTotal [⟨['a'], 0, 1⟩, ⟨['b'], 10, 5⟩] = 16 := by
    rw [duracaoTotal,
      show ([⟨['a'], 0, 1⟩, ⟨['b'], 10, 5⟩] : List Seg).map
          (fun s => s.start + s.duration) = [0 + 1, 10 + 5] from rfl,
      show maxLista [0 + 1, 10 + 5] = max (0 + 1) (10 + 5) from rfl,
      max_eq_right (by norm_num : (0 + 1 : ℚ) ≤ 10 + 5)]
    norm_num
  refine ⟨?_, ?_, by norm_num⟩
  · simp only [_gerar_audio_completo]
    rw [normalizar_dois_eval, hsinc,
      if_neg (by simp : ¬ ([(⟨0, 1, 0⟩ : ClipInfo)] : List ClipInfo) = []),
      if_true, hdt]
  · rw [show ([(⟨0, 1, 0⟩ : ClipInfo)] : List ClipInfo).map
        (fun c => c.start + c.duration) = [0 + 1] from rfl,
      show maxLista [0 + 1] = 0 + 1 from rfl]
    norm_num

/-- C3, amended: the silent base track has length
`max(start+duration) + 1.0` taken over ALL normalized segments — including
segments later skipped by sync failures; when no segment fails, that equals
`T + 1.0` with `T` the maximum of `start + duration` over the synced clips
that reach assembly. -/
theorem duracao_total_sem_falhas (segmentos : List Seg)
    (h : sincronizar (_normalizar_segmentos segmentos) (fun _ => false) ≠ []) :
    _gerar_audio_completo segmentos (fun _ => false) true
      = SaidaAudio.mixado
          (sincronizar (_normalizar_segmentos segmentos) (fun _ => false))
          (maxLista ((sincronizar (_normalizar_segmentos segmentos)
              (fun _ => false)).map (fun c => c.start + c.duration)) + 1) := by
  simp only [_gerar_audio_completo]
  rw [if_neg h, if_true, duracaoTotal, sincronizar_todos]

theorem duracao_total_sem_falhas_test :
    sincronizar (_normalizar_segmentos [⟨['a'], 0, 2⟩]) (fun _ => false) ≠ [] ∧
    _gerar_audio_completo [⟨['a'], 0, 2⟩] (fun _ => false) true
      = SaidaAudio.mixado
          (sincronizar (_normalizar_segmentos [⟨['a'], 0, 2⟩]) (fun _ => false))
          (maxLista ((sincronizar (_normalizar_segmentos [⟨['a'], 0, 2⟩])
              (fun _ => false)).map (fun c => c.start + c.duration)) + 1) :=
  ⟨by rw [normalizar_um_eval]; simp [sincronizar],
    duracao_total_sem_falhas [⟨['a'], 0, 2⟩]
      (by rw [normalizar_um_eval]; simp [sincronizar])⟩
